import Mathlib

/-
Verification of the "use cache" directive cache engine.

The definitions below are a shallow embedding of the cache engine source
(`packages/next/src/server/use-cache` in the repository). JavaScript numbers
(wall-clock milliseconds and cacheLife windows in seconds) are modelled as
rationals. Single-consumption streams are modelled symbolically by the
`StreamExpr` type, which records the provenance of a stream (a base stream, a
branch of a `tee()`, or a wrapper), because the engine only ever routes,
duplicates and error-tags streams without inspecting their content.
-/

namespace UseCache

/-- Symbolic model of a `ReadableStream` value: the engine never looks inside
a stream, it only tees it (`tee()` yields a left and a right branch), wraps it
in a read-tracking stream (`createTrackedReadableStream`), or creates a stream
that starts in an error state carrying the `UseCacheTimeoutError`
(the `controller.error(timeoutError)` stream in `generateCacheEntryImpl`). -/
inductive StreamExpr where
  | base : ℕ → StreamExpr
  | teeLeft : StreamExpr → StreamExpr
  | teeRight : StreamExpr → StreamExpr
  | tracked : StreamExpr → StreamExpr
  | erroredTimeout : StreamExpr
  deriving DecidableEq, Repr

/-- A stream is in an error state carrying the dedicated timeout error iff it
derives (through tee branches or tracking wrappers) from the stream that was
created errored with `timeoutError`. -/
def erroredWithTimeoutError : StreamExpr → Bool
  | .erroredTimeout => true
  | .teeLeft s => erroredWithTimeoutError s
  | .teeRight s => erroredWithTimeoutError s
  | .tracked s => erroredWithTimeoutError s
  | .base _ => false

/-- Embeds the `CacheEntry` type: a value stream plus freshness metadata.
`timestamp` is in milliseconds, `revalidate`, `expire` and `stale` in seconds. -/
structure CacheEntry where
  value : StreamExpr
  timestamp : ℚ
  revalidate : ℚ
  expire : ℚ
  stale : ℚ
  tags : List String
  deriving DecidableEq, Repr

/-- The `type` discriminant of a `WorkUnitStore`. -/
inductive WorkUnitType where
  | request
  | cache
  | unstableCache
  | prerender
  | prerenderPPR
  | prerenderLegacy
  deriving DecidableEq, Repr

/-- The fields of a `WorkUnitStore` that the freshness-propagation code reads
and writes: the discriminant, the accumulated tags (`null` before the first
merge, modelled as `none`), and the stale/revalidate/expire windows. -/
structure WorkUnitStore where
  type : WorkUnitType
  tags : Option (List String)
  stale : ℚ
  revalidate : ℚ
  expire : ℚ
  deriving DecidableEq, Repr

/-- The `workUnitStore.type === 'cache' || ... === 'prerender' || ...
=== 'prerender-ppr' || ... === 'prerender-legacy'` guard of
`propagateCacheLifeAndTags`. -/
def isCacheLifeTarget : WorkUnitType → Bool
  | .cache => true
  | .prerender => true
  | .prerenderPPR => true
  | .prerenderLegacy => true
  | _ => false

/-- The tag-merging loop of `propagateCacheLifeAndTags`: each entry tag is
appended to the outer tag list unless already present (the `includes` check is
against the live, growing array, which `foldl` reproduces). -/
def mergeTags (outerTags : List String) (entryTags : List String) : List String :=
  entryTags.foldl (fun acc tag => if tag ∈ acc then acc else acc ++ [tag]) outerTags

/-- Embeds `propagateCacheLifeAndTags`: for an enclosing cache/prerender
work-unit store, union the entry tags into the store tags (initialising the
`null` tag list to an empty array first) and lower each of `stale`,
`revalidate`, `expire` to the entry value when the store value is greater.
For other store types (or no store) nothing happens. The JavaScript function
mutates the store in place; here the updated store is returned. -/
def propagateCacheLifeAndTags (workUnitStore : Option WorkUnitStore)
    (entry : CacheEntry) : Option WorkUnitStore :=
  match workUnitStore with
  | none => none
  | some s =>
    if isCacheLifeTarget s.type then
      some { s with
        tags := some (mergeTags (s.tags.getD []) entry.tags)
        stale := if s.stale > entry.stale then entry.stale else s.stale
        revalidate := if s.revalidate > entry.revalidate then entry.revalidate else s.revalidate
        expire := if s.expire > entry.expire then entry.expire else s.expire }
    else
      some s

/-- Merging a list of child entries into a parent store one after the other,
as happens when several nested cached calls complete. -/
def propagateAll (workUnitStore : Option WorkUnitStore)
    (entries : List CacheEntry) : Option WorkUnitStore :=
  entries.foldl propagateCacheLifeAndTags workUnitStore

theorem mergeTags_mem (o e : List String) (t : String) :
    t ∈ mergeTags o e ↔ t ∈ o ∨ t ∈ e := by
  induction e generalizing o with
  | nil => simp [mergeTags]
  | cons a e ih =>
    show t ∈ mergeTags (if a ∈ o then o else o ++ [a]) e ↔ _
    rw [ih]
    by_cases ha : a ∈ o
    · simp only [ha, if_true, List.mem_cons]
      constructor
      · rintro (h | h)
        · exact Or.inl h
        · exact Or.inr (Or.inr h)
      · rintro (h | rfl | h)
        · exact Or.inl h
        · exact Or.inl ha
        · exact Or.inr h
    · simp only [ha, if_false, List.mem_append, List.mem_singleton, List.mem_cons]
      tauto

theorem mergeTags_nodup (o e : List String) (ho : o.Nodup) :
    (mergeTags o e).Nodup := by
  induction e generalizing o with
  | nil => exact ho
  | cons a e ih =>
    show (mergeTags (if a ∈ o then o else o ++ [a]) e).Nodup
    by_cases ha : a ∈ o
    · simpa [ha] using ih o ho
    · simp only [ha, if_false]
      exact ih _ (by simp [List.nodup_append, ho, ha])

theorem mergeTags_of_subset (o e : List String) (h : ∀ t ∈ e, t ∈ o) :
    mergeTags o e = o := by
  induction e generalizing o with
  | nil => rfl
  | cons a e ih =>
    show mergeTags (if a ∈ o then o else o ++ [a]) e = o
    rw [if_pos (h a (by simp))]
    exact ih o fun t ht => h t (by simp [ht])

theorem mergeTags_idem (o e : List String) :
    mergeTags (mergeTags o e) e = mergeTags o e :=
  mergeTags_of_subset _ _ fun t ht => (mergeTags_mem o e t).mpr (Or.inr ht)

theorem jsMin_eq_min (a b : ℚ) : (if a > b then b else a) = min a b := by
  rcases le_or_lt a b with h | h
  · simp [not_lt.mpr h, min_eq_left h]
  · simp [h, min_eq_right h.le]

/-- One-step characterisation of `propagateCacheLifeAndTags` on a
cache/prerender store. -/
theorem propagate_step (s : WorkUnitStore) (hs : isCacheLifeTarget s.type = true)
    (e : CacheEntry) :
    propagateCacheLifeAndTags (some s) e = some
      { s with
        tags := some (mergeTags (s.tags.getD []) e.tags)
        stale := min s.stale e.stale
        revalidate := min s.revalidate e.revalidate
        expire := min s.expire e.expire } := by
  simp [propagateCacheLifeAndTags, hs, jsMin_eq_min]

theorem propagateAll_spec (s : WorkUnitStore) (hs : isCacheLifeTarget s.type = true)
    (entries : List CacheEntry) :
    ∃ s', propagateAll (some s) entries = some s' ∧
      s'.type = s.type ∧
      s'.revalidate = (entries.map CacheEntry.revalidate).foldl min s.revalidate ∧
      s'.expire = (entries.map CacheEntry.expire).foldl min s.expire ∧
      s'.stale = (entries.map CacheEntry.stale).foldl min s.stale ∧
      (∀ t, t ∈ s'.tags.getD [] ↔ t ∈ s.tags.getD [] ∨ ∃ x ∈ entries, t ∈ x.tags) ∧
      ((s.tags.getD []).Nodup → (s'.tags.getD []).Nodup) := by
  induction entries generalizing s with
  | nil =>
    exact ⟨s, rfl, rfl, rfl, rfl, rfl, by simp, fun h => h⟩
  | cons e entries ih =>
    have hstep := propagate_step s hs e
    set s₁ : WorkUnitStore :=
      { s with
        tags := some (mergeTags (s.tags.getD []) e.tags)
        stale := min s.stale e.stale
        revalidate := min s.revalidate e.revalidate
        expire := min s.expire e.expire } with hs₁
    have hty : isCacheLifeTarget s₁.type = true := hs
    obtain ⟨s', h1, h2, h3, h4, h5, h6, h7⟩ := ih s₁ hty
    refine ⟨s', ?_, ?_, ?_, ?_, ?_, ?_, ?_⟩
    · show (e :: entries).foldl propagateCacheLifeAndTags (some s) = some s'
      rw [List.foldl_cons, hstep]
      exact h1
    · exact h2
    · simpa [hs₁] using h3
    · simpa [hs₁] using h4
    · simpa [hs₁] using h5
    · intro t
      rw [h6 t]
      simp only [hs₁, Option.getD_some, mergeTags_mem]
      constructor
      · rintro ((h | h) | ⟨x, hx, hxt⟩)
        · exact Or.inl h
        · exact Or.inr ⟨e, by simp, h⟩
        · exact Or.inr ⟨x, by simp [hx], hxt⟩
      · rintro (h | ⟨x, hx, hxt⟩)
        · exact Or.inl (Or.inl h)
        · rcases List.mem_cons.mp hx with h | h
          · exact Or.inl (Or.inr (h ▸ hxt))
          · exact Or.inr ⟨x, h, hxt⟩
    · intro hnd
      exact h7 (by simpa [hs₁] using mergeTags_nodup _ e.tags hnd)

theorem foldl_min_perm {l₁ l₂ : List ℚ} (hperm : l₁.Perm l₂) (init : ℚ) :
    l₁.foldl min init = l₂.foldl min init := by
  induction hperm generalizing init with
  | nil => rfl
  | cons x _ ih => simp only [List.foldl_cons]; exact ih _
  | swap x y l => simp only [List.foldl_cons, min_right_comm]
  | trans _ _ ih₁ ih₂ => exact (ih₁ init).trans (ih₂ init)

/-- C1: Freshness propagation merge. A single merge into an enclosing
cache/prerender store unions the entry tags into the parent tags (deduplicated)
and sets each of stale/revalidate/expire to the pointwise minimum; the merge is
idempotent; merging N child entries yields windows equal to the fold of `min`
over the children starting from the parent value (i.e. the minimum over the
children and the initial value, as witnessed by the lower bounds), with tags
the union; and merging in any order (any permutation) yields the same windows
and the same tag set. -/
theorem freshness_propagation_merge
    (s : WorkUnitStore) (hs : isCacheLifeTarget s.type = true)
    (e : CacheEntry) (entries l₁ l₂ : List CacheEntry) (hperm : l₁.Perm l₂) :
    (∃ s₁, propagateCacheLifeAndTags (some s) e = some s₁ ∧
      s₁.tags = some (mergeTags (s.tags.getD []) e.tags) ∧
      (∀ t, t ∈ s₁.tags.getD [] ↔ t ∈ s.tags.getD [] ∨ t ∈ e.tags) ∧
      ((s.tags.getD []).Nodup → (s₁.tags.getD []).Nodup) ∧
      s₁.stale = min s.stale e.stale ∧
      s₁.revalidate = min s.revalidate e.revalidate ∧
      s₁.expire = min s.expire e.expire) ∧
    propagateCacheLifeAndTags (propagateCacheLifeAndTags (some s) e) e =
      propagateCacheLifeAndTags (some s) e ∧
    (∀ s', propagateAll (some s) entries = some s' →
      s'.revalidate = (entries.map CacheEntry.revalidate).foldl min s.revalidate ∧
      s'.expire = (entries.map CacheEntry.expire).foldl min s.expire ∧
      s'.stale = (entries.map CacheEntry.stale).foldl min s.stale ∧
      s'.revalidate ≤ s.revalidate ∧ (∀ x ∈ entries, s'.revalidate ≤ x.revalidate) ∧
      s'.expire ≤ s.expire ∧ (∀ x ∈ entries, s'.expire ≤ x.expire) ∧
      s'.stale ≤ s.stale ∧ (∀ x ∈ entries, s'.stale ≤ x.stale) ∧
      (∀ t, t ∈ s'.tags.getD [] ↔ t ∈ s.tags.getD [] ∨ ∃ x ∈ entries, t ∈ x.tags)) ∧
    (∀ sa sb, propagateAll (some s) l₁ = some sa → propagateAll (some s) l₂ = some sb →
      sa.revalidate = sb.revalidate ∧ sa.expire = sb.expire ∧ sa.stale = sb.stale ∧
      (∀ t, t ∈ sa.tags.getD [] ↔ t ∈ sb.tags.getD [])) := by
  have hfold_le : ∀ (l : List ℚ) (init : ℚ), l.foldl min init ≤ init := by
    intro l
    induction l with
    | nil => intro init; exact le_rfl
    | cons x l ih =>
      intro init
      calc (x :: l).foldl min init = l.foldl min (min init x) := by rw [List.foldl_cons]
      _ ≤ min init x := ih _
      _ ≤ init := min_le_left _ _
  have hfold_mem_le : ∀ (l : List ℚ) (init : ℚ) (x : ℚ), x ∈ l → l.foldl min init ≤ x := by
    intro l
    induction l with
    | nil => intro init x hx; exact absurd hx (List.not_mem_nil x)
    | cons y l ih =>
      intro init x hx
      rcases List.mem_cons.mp hx with rfl | hx
      · calc (x :: l).foldl min init = l.foldl min (min init x) := by rw [List.foldl_cons]
        _ ≤ min init x := hfold_le _ _
        _ ≤ x := min_le_right _ _
      · exact (by rw [List.foldl_cons]; exact ih _ x hx)
  refine ⟨?_, ?_, ?_, ?_⟩
  · refine ⟨_, propagate_step s hs e, rfl, ?_, ?_, rfl, rfl, rfl⟩
    · intro t; simpa using mergeTags_mem (s.tags.getD []) e.tags t
    · intro hnd; simpa using mergeTags_nodup _ e.tags hnd
  · have key := propagate_step
      { s with
        tags := some (mergeTags (s.tags.getD []) e.tags)
        stale := min s.stale e.stale
        revalidate := min s.revalidate e.revalidate
        expire := min s.expire e.expire } hs e
    rw [propagate_step s hs e, key]
    simp [mergeTags_idem, min_assoc, min_self]
  · intro s' h1
    obtain ⟨s'', h2, _, h3, h4, h5, h6, _⟩ := propagateAll_spec s hs entries
    rw [h1] at h2
    obtain rfl : s' = s'' := by injection h2
    refine ⟨h3, h4, h5, ?_, ?_, ?_, ?_, ?_, ?_, h6⟩
    · rw [h3]; exact hfold_le _ _
    · intro x hx; rw [h3]
      exact hfold_mem_le _ _ _ (List.mem_map.mpr ⟨x, hx, rfl⟩)
    · rw [h4]; exact hfold_le _ _
    · intro x hx; rw [h4]
      exact hfold_mem_le _ _ _ (List.mem_map.mpr ⟨x, hx, rfl⟩)
    · rw [h5]; exact hfold_le _ _
    · intro x hx; rw [h5]
      exact hfold_mem_le _ _ _ (List.mem_map.mpr ⟨x, hx, rfl⟩)
  · intro sa sb ha hb
    obtain ⟨sa', ha', _, ha3, ha4, ha5, ha6, _⟩ := propagateAll_spec s hs l₁
    obtain ⟨sb', hb', _, hb3, hb4, hb5, hb6, _⟩ := propagateAll_spec s hs l₂
    rw [ha] at ha'; rw [hb] at hb'
    obtain rfl : sa = sa' := by injection ha'
    obtain rfl : sb = sb' := by injection hb'
    refine ⟨?_, ?_, ?_, ?_⟩
    · rw [ha3, hb3, foldl_min_perm (hperm.map CacheEntry.revalidate)]
    · rw [ha4, hb4, foldl_min_perm (hperm.map CacheEntry.expire)]
    · rw [ha5, hb5, foldl_min_perm (hperm.map CacheEntry.stale)]
    · intro t
      rw [ha6 t, hb6 t]
      constructor
      · rintro (h | ⟨x, hx, hxt⟩)
        · exact Or.inl h
        · exact Or.inr ⟨x, hperm.mem_iff.mp hx, hxt⟩
      · rintro (h | ⟨x, hx, hxt⟩)
        · exact Or.inl h
        · exact Or.inr ⟨x, hperm.mem_iff.mpr hx, hxt⟩

/-- Witness for `freshness_propagation_merge` at concrete inputs: a prerender
parent with window (10, 20, 5) and two children merged in both orders. -/
theorem freshness_propagation_merge_witness :
    (isCacheLifeTarget WorkUnitType.prerender = true) ∧
    (∃ s₁, propagateCacheLifeAndTags
        (some ⟨WorkUnitType.prerender, none, 5, 10, 20⟩)
        ⟨StreamExpr.base 0, 0, 3, 30, 7, ["a"]⟩ = some s₁ ∧
      s₁.revalidate = min 10 3) := by
  have h := freshness_propagation_merge
    ⟨WorkUnitType.prerender, none, 5, 10, 20⟩ rfl
    ⟨StreamExpr.base 0, 0, 3, 30, 7, ["a"]⟩
    [] [⟨StreamExpr.base 0, 0, 3, 30, 7, ["a"]⟩] [⟨StreamExpr.base 0, 0, 3, 30, 7, ["a"]⟩]
    (List.Perm.refl _)
  obtain ⟨⟨s₁, h1, _, _, _, _, h6, _⟩, _, _, _⟩ := h
  exact ⟨rfl, ⟨s₁, h1, h6⟩⟩

/-! Cache key encoder: `encodeFormData` flattens a multi-part (form-data-like)
cache key into a single string. JavaScript strings are modelled as lists of
UTF-16 code units (`List Char` for the flattening, `List ℕ` for the
byte-pairing conversion of binary values). -/

/-- Embeds JavaScript `Number.prototype.toString(16)` on the non-negative
integers as used for `key.length.toString(16)`: canonical lowercase hex
digits, no leading zeros, and the single digit 0 for zero. `Nat.digitChar`
maps 0..15 to the characters 0-9, a-f. -/
def hexChars (n : ℕ) : List Char :=
  if n = 0 then ['0'] else (Nat.digits 16 n).reverse.map Nat.digitChar

/-- Decodes one lowercase hex digit back to its value (left inverse of
`Nat.digitChar` below 16), used only to prove that `hexChars` is injective. -/
def hexDigitVal (c : Char) : ℕ :=
  if c.toNat ≥ 97 then c.toNat - 87 else c.toNat - 48

theorem hexDigitVal_digitChar : ∀ d < 16, hexDigitVal (Nat.digitChar d) = d := by
  decide

theorem digitChar_ne_colon : ∀ d < 16, Nat.digitChar d ≠ ':' := by
  decide

/-- Decodes a canonical hex string back to a number. -/
def hexVal (l : List Char) : ℕ :=
  Nat.ofDigits 16 ((l.map hexDigitVal).reverse)

theorem hexVal_hexChars (n : ℕ) : hexVal (hexChars n) = n := by
  unfold hexChars hexVal
  split
  · next h => subst h; simp [Nat.ofDigits, hexDigitVal]
  · next h =>
    rw [List.map_reverse, List.map_reverse, List.reverse_reverse, List.map_map]
    have hmap : (Nat.digits 16 n).map (hexDigitVal ∘ Nat.digitChar) = Nat.digits 16 n := by
      have : (Nat.digits 16 n).map (hexDigitVal ∘ Nat.digitChar) =
          (Nat.digits 16 n).map id := by
        apply List.map_congr_left
        intro d hd
        exact hexDigitVal_digitChar d (Nat.digits_lt_base (by norm_num) hd)
      rw [this, List.map_id]
    rw [hmap, Nat.ofDigits_digits]

theorem hexChars_ne_nil (n : ℕ) : hexChars n ≠ [] := by
  unfold hexChars
  split
  · simp
  · next h =>
    have : Nat.digits 16 n ≠ [] := Nat.digits_ne_nil_iff_ne_zero.mpr h
    simp [this]

theorem colon_not_mem_hexChars (n : ℕ) : ':' ∉ hexChars n := by
  unfold hexChars
  split
  · decide
  · intro hmem
    rw [List.mem_map] at hmem
    obtain ⟨d, hd, hdc⟩ := hmem
    rw [List.mem_reverse] at hd
    exact digitChar_ne_colon d (Nat.digits_lt_base (by norm_num) hd) hdc

theorem hexChars_injective (m n : ℕ) (h : hexChars m = hexChars n) : m = n := by
  rw [← hexVal_hexChars m, h, hexVal_hexChars]

/-- One field segment of the flattened key: `hex(length of s) + ':' + s`
(both the name segment and the stringified-value segment have this shape). -/
def encodeField (s : List Char) : List Char :=
  hexChars s.length ++ ':' :: s

/-- Embeds the loop of `encodeFormData`: starting from the empty string,
append for every (name, stringified value) pair the name segment followed by
the value segment. Fields are modelled after value stringification
(`encodeBinaryValue` below covers the binary branch of the stringification). -/
def encodeFormData (fields : List (List Char × List Char)) : List Char :=
  fields.foldl (fun result kv => result ++ encodeField kv.1 ++ encodeField kv.2) []

theorem encodeFormData_acc (fields : List (List Char × List Char)) (acc : List Char) :
    fields.foldl (fun result kv => result ++ encodeField kv.1 ++ encodeField kv.2) acc
      = acc ++ encodeFormData fields := by
  induction fields generalizing acc with
  | nil => simp [encodeFormData]
  | cons kv fields ih =>
    show fields.foldl _ (acc ++ encodeField kv.1 ++ encodeField kv.2) = _
    rw [ih]
    show _ = acc ++ ((kv :: fields).foldl _ [])
    show _ = acc ++ (fields.foldl _ ([] ++ encodeField kv.1 ++ encodeField kv.2))
    rw [ih]
    simp [List.append_assoc]

theorem encodeFormData_cons (kv : List Char × List Char)
    (fields : List (List Char × List Char)) :
    encodeFormData (kv :: fields)
      = encodeField kv.1 ++ (encodeField kv.2 ++ encodeFormData fields) := by
  show fields.foldl _ ([] ++ encodeField kv.1 ++ encodeField kv.2) = _
  rw [encodeFormData_acc]
  simp [List.append_assoc]

/-- The first colon after a colon-free prefix delimits unambiguously. -/
theorem colon_split : ∀ (h₁ h₂ t₁ t₂ : List Char), ':' ∉ h₁ → ':' ∉ h₂ →
    h₁ ++ ':' :: t₁ = h₂ ++ ':' :: t₂ → h₁ = h₂ ∧ t₁ = t₂ := by
  intro h₁
  induction h₁ with
  | nil =>
    intro h₂ t₁ t₂ _ hh₂ heq
    cases h₂ with
    | nil => simpa using heq
    | cons d h₂ =>
      simp only [List.nil_append, List.cons_append, List.cons.injEq] at heq
      exact absurd (heq.1 ▸ List.mem_cons_self d h₂) hh₂
  | cons c h₁ ih =>
    intro h₂ t₁ t₂ hh₁ hh₂ heq
    cases h₂ with
    | nil =>
      simp only [List.nil_append, List.cons_append, List.cons.injEq] at heq
      exact absurd (heq.1 ▸ List.mem_cons_self c h₁) hh₁
    | cons d h₂ =>
      simp only [List.cons_append, List.cons.injEq] at heq
      obtain ⟨he₁, he₂⟩ := ih h₂ t₁ t₂ (fun hm => hh₁ (List.mem_cons_of_mem c hm))
        (fun hm => hh₂ (List.mem_cons_of_mem d hm)) heq.2
      exact ⟨by rw [heq.1, he₁], he₂⟩

/-- A field segment followed by arbitrary rest determines the field and the
rest: the embedded length prefix makes the boundary unambiguous. -/
theorem encodeField_append_inj (s₁ s₂ r₁ r₂ : List Char)
    (h : encodeField s₁ ++ r₁ = encodeField s₂ ++ r₂) : s₁ = s₂ ∧ r₁ = r₂ := by
  unfold encodeField at h
  rw [List.append_assoc, List.append_assoc, List.cons_append, List.cons_append] at h
  obtain ⟨hhex, hrest⟩ := colon_split _ _ _ _
    (colon_not_mem_hexChars s₁.length) (colon_not_mem_hexChars s₂.length) h
  have hlen : s₁.length = s₂.length := hexChars_injective _ _ hhex
  exact List.append_inj hrest hlen

/-- C2: Cache key flattening is injective. The field-wise encoding
`hex(length of name) + ':' + name + hex(length of value) + ':' + value`,
concatenated over the (name, stringified value) pairs, never maps two
distinct sequences of pairs to the same output string. -/
theorem encodeFormData_injective (l₁ l₂ : List (List Char × List Char))
    (h : encodeFormData l₁ = encodeFormData l₂) : l₁ = l₂ := by
  induction l₁ generalizing l₂ with
  | nil =>
    cases l₂ with
    | nil => rfl
    | cons kv l₂ =>
      rw [encodeFormData_cons] at h
      have hne := hexChars_ne_nil kv.1.length
      rw [show encodeFormData [] = [] from rfl] at h
      rw [encodeField, List.append_assoc, List.cons_append] at h
      rw [List.nil_eq, List.append_eq_nil] at h
      exact absurd h.1 hne
  | cons kv l₁ ih =>
    cases l₂ with
    | nil =>
      rw [encodeFormData_cons] at h
      have hne := hexChars_ne_nil kv.1.length
      rw [show encodeFormData [] = [] from rfl] at h
      rw [encodeField, List.append_assoc, List.cons_append] at h
      rw [List.append_eq_nil] at h
      exact absurd h.1 hne
    | cons kv' l₂ =>
      rw [encodeFormData_cons, encodeFormData_cons] at h
      obtain ⟨h1, h2⟩ := encodeField_append_inj _ _ _ _ h
      obtain ⟨h3, h4⟩ := encodeField_append_inj _ _ _ _ h2
      rw [ih l₂ h4, Prod.ext h1 h3]

/-- Witness for `encodeFormData_injective`: a concrete two-field key whose
encoding is evaluated and fed back through the theorem. -/
theorem encodeFormData_injective_witness :
    ([(['i', 'd'], ['4', '2']), (['x'], [':'])] :
      List (List Char × List Char)) = [(['i', 'd'], ['4', '2']), (['x'], [':'])] :=
  encodeFormData_injective _ _ rfl

/-- Embeds the `new Uint16Array(arrayBuffer)` view used by the binary branch
of `encodeFormData`: consecutive byte pairs are read as little-endian 16-bit
values (the platform byte order of the JavaScript typed-array view). A
trailing odd byte is not part of the view (the source only ever builds the
view over an even number of bytes). Bytes are naturals below 256. -/
def uint16ViewLE : List ℕ → List ℕ
  | b₀ :: b₁ :: rest => (b₀ + 256 * b₁) :: uint16ViewLE rest
  | _ => []

/-- Embeds the binary branch of `encodeFormData`: an even-length byte buffer
becomes the code points of its 16-bit view; an odd-length buffer becomes the
code points of the view over all but the last byte, followed by the last byte
as its own code point. The result is the list of UTF-16 code units of the
produced string (every emitted value is below 2^16, so each
`String.fromCodePoint` argument yields exactly one code unit). -/
def encodeBinaryValue (bytes : List ℕ) : List ℕ :=
  if bytes.length % 2 = 0 then
    uint16ViewLE bytes
  else
    uint16ViewLE bytes.dropLast ++ [bytes.getLastD 0]

theorem uint16ViewLE_inj : ∀ (b c : List ℕ), b.length = c.length →
    b.length % 2 = 0 → (∀ x ∈ b, x < 256) → (∀ x ∈ c, x < 256) →
    uint16ViewLE b = uint16ViewLE c → b = c
  | [], [], _, _, _, _, _ => rfl
  | [], _ :: _, hlen, _, _, _, _ => by simp at hlen
  | _ :: _, [], hlen, _, _, _, _ => by simp at hlen
  | [_], _, _, hev, _, _, _ => by simp at hev
  | _ :: _ :: _, [_], hlen, _, _, _, _ => by simp at hlen
  | b₀ :: b₁ :: bs, c₀ :: c₁ :: cs, hlen, hev, hb, hc, h => by
    simp only [uint16ViewLE, List.cons.injEq] at h
    have hb₀ : b₀ < 256 := hb b₀ (by simp)
    have hb₁ : b₁ < 256 := hb b₁ (by simp)
    have hc₀ : c₀ < 256 := hc c₀ (by simp)
    have hc₁ : c₁ < 256 := hc c₁ (by simp)
    have hbc : b₀ = c₀ ∧ b₁ = c₁ := by omega
    have htail : bs = cs := uint16ViewLE_inj bs cs
      (by simpa using hlen) (by simp [List.length] at hev ⊢; omega)
      (fun x hx => hb x (by simp [hx])) (fun x hx => hc x (by simp [hx])) h.2
    rw [hbc.1, hbc.2, htail]

theorem dropLast_append_getLastD : ∀ (l : List ℕ), l ≠ [] →
    l.dropLast ++ [l.getLastD 0] = l
  | [x], _ => rfl
  | x :: y :: rest, _ => by
    have htail := dropLast_append_getLastD (y :: rest) (by simp)
    show (x :: (y :: rest).dropLast) ++ [(y :: rest).getLastD 0] = _
    rw [List.cons_append, htail]

theorem length_uint16ViewLE : ∀ (l : List ℕ), (uint16ViewLE l).length = l.length / 2
  | [] => rfl
  | [b] => by
    show ([] : List ℕ).length = [b].length / 2
    simp
  | _ :: _ :: rest => by
    show (uint16ViewLE rest).length + 1 = _
    rw [length_uint16ViewLE rest]
    simp only [List.length_cons]
    omega

/-- C8 counterexample: the byte sequences 41 and 41 00 differ but produce the
same UCS-2 string (the single code unit 0x41), so the conversion is not
lossless across byte sequences of different lengths. -/
theorem encodeBinaryValue_not_injective :
    encodeBinaryValue [65] = encodeBinaryValue [65, 0] ∧ ([65] : List ℕ) ≠ [65, 0] := by
  constructor
  · rfl
  · simp

/-- C8 (amended): the conversion is lossless only relative to the original
byte count: two byte sequences of the same length that encode to the same
code-unit string are equal (equivalently, the bytes are recoverable from the
string together with the byte length). -/
theorem encodeBinaryValue_inj_of_length_eq (b c : List ℕ)
    (hlen : b.length = c.length)
    (hb : ∀ x ∈ b, x < 256) (hc : ∀ x ∈ c, x < 256)
    (h : encodeBinaryValue b = encodeBinaryValue c) : b = c := by
  unfold encodeBinaryValue at h
  rw [hlen] at h
  by_cases hev : c.length % 2 = 0
  · rw [if_pos hev, if_pos hev] at h
    exact uint16ViewLE_inj b c hlen (hlen ▸ hev) hb hc h
  · rw [if_neg hev, if_neg hev] at h
    have hbne : b ≠ [] := by
      intro hcontra
      rw [hcontra] at hlen
      simp at hlen
      omega
    have hcne : c ≠ [] := by
      intro hcontra
      rw [hcontra] at hev
      simp at hev
    have hdl : b.dropLast.length = c.dropLast.length := by
      rw [List.length_dropLast, List.length_dropLast, hlen]
    have hvlen : (uint16ViewLE b.dropLast).length = (uint16ViewLE c.dropLast).length := by
      rw [length_uint16ViewLE, length_uint16ViewLE, hdl]
    obtain ⟨hpre, hlast⟩ := List.append_inj h hvlen
    have hdrop : b.dropLast = c.dropLast := by
      refine uint16ViewLE_inj _ _ hdl ?_ ?_ ?_ hpre
      · rw [List.length_dropLast, hlen]
        omega
      · exact fun x hx => hb x (List.dropLast_subset _ hx)
      · exact fun x hx => hc x (List.dropLast_subset _ hx)
    have hlast' : b.getLastD 0 = c.getLastD 0 := by
      simpa using hlast
    calc b = b.dropLast ++ [b.getLastD 0] := (dropLast_append_getLastD b hbne).symm
    _ = c.dropLast ++ [c.getLastD 0] := by rw [hdrop, hlast']
    _ = c := dropLast_append_getLastD c hcne

/-- Witness for `encodeBinaryValue_inj_of_length_eq` at a concrete three-byte
buffer. -/
theorem encodeBinaryValue_inj_witness :
    ([1, 2, 3] : List ℕ) = [1, 2, 3] :=
  encodeBinaryValue_inj_of_length_eq [1, 2, 3] [1, 2, 3] rfl
    (by decide) (by decide) rfl

/-! Cache orchestrator: a shallow embedding of the body of the function
returned by `cache(kind, id, boundArgsLength, originalFn)`, from the point
where the serialized cache key has been computed, together with the entry
generator `generateCacheEntryImpl`. External collaborators are abstracted as
inputs: what the render resume data cache and the cache handler return, the
flags read off the work store and the work-unit store, and how the wrapped
render behaves (when its result becomes ready, whether the dynamic-access
abort signal fired, which stream the render produces and which entry
`collectResult` assembles from the drained stream). Effects are recorded as
counters: `beginRead`/`endRead` calls on the prerender cache signal (split
into calls made synchronously on the path and calls deferred to a stream
being fully drained or collected), `cacheHandler.set` calls, pending
revalidate-write registrations, and resume-data-cache writes. -/

/-- Modelled from the spec: the constant `DYNAMIC_EXPIRE` is imported from a
constants module that is not among the provided sources. The spec describes
it as a fixed low-freshness floor with a default threshold of five
minutes-equivalent, i.e. 300 seconds, compared against an entry's `expire`
window (which is in seconds). -/
def DYNAMIC_EXPIRE : ℚ := 300

/-- The prerender time budget of `generateCacheEntryImpl`, in milliseconds:
`setTimeout(..., 50000)`. -/
def USE_CACHE_TIMEOUT_MS : ℚ := 50000

/-- The fields of the work store consulted by `isRecentlyRevalidatedTag`:
tags previously revalidated (e.g. by a redirecting server action) and tags
revalidated by the currently running server action but possibly not yet
propagated to the cache handler (`undefined` modelled as `none`). -/
structure WorkStoreRevalidation where
  previouslyRevalidatedTags : List String
  pendingRevalidatedTags : Option (List String)
  deriving DecidableEq, Repr

/-- Embeds `isRecentlyRevalidatedTag`: a tag is recently revalidated if it is
in the previously revalidated tags or in the pending revalidated tags (the
optional chaining on the pending list makes a missing list contain nothing). -/
def isRecentlyRevalidatedTag (tag : String) (ws : WorkStoreRevalidation) : Bool :=
  ws.previouslyRevalidatedTags.contains tag ||
    (ws.pendingRevalidatedTags.getD []).contains tag

/-- Embeds `shouldDiscardCacheEntry`: a retrieved entry is discarded if any
of its tags was recently revalidated, or its timestamp is at or before the
latest implicit-tag invalidation, or any implicit tag of the request was
recently revalidated. -/
def shouldDiscardCacheEntry (entry : CacheEntry) (ws : WorkStoreRevalidation)
    (implicitTags : List String) (implicitTagsExpiration : ℚ) : Bool :=
  entry.tags.any (fun tag => isRecentlyRevalidatedTag tag ws) ||
    decide (entry.timestamp ≤ implicitTagsExpiration) ||
    implicitTags.any (fun tag => isRecentlyRevalidatedTag tag ws)

/-- The dynamic-leaning test applied to entries during a prerender:
`entry.revalidate === 0 || entry.expire < DYNAMIC_EXPIRE`. -/
def dynamicLeaningEntry (e : CacheEntry) : Bool :=
  decide (e.revalidate = 0) || decide (e.expire < DYNAMIC_EXPIRE)

/-- Whether the ambient work-unit store is a prerender store
(`workUnitStore?.type === 'prerender'`). -/
def isPrerenderStore (w : Option WorkUnitStore) : Bool :=
  match w with
  | some s => match s.type with
    | .prerender => true
    | _ => false
  | none => false

/-- The reasons a cache invocation can return a never-resolving (hanging)
promise tied to the render signal instead of a value. -/
inductive HangReason where
  | resumeDynamicLeaning
  | allowEmptyShellMiss
  | handlerDynamicLeaning
  | generatorDynamicAccess
  deriving DecidableEq, Repr

/-- Inputs of one `generateCacheEntryImpl` run: the enclosing work-unit store
(restored around the fresh cache store), whether the enclosing prerender has
a cache signal, the time (ms, relative to the start of the run) at which the
wrapped render would produce its result (`none` = never), whether the
dynamic-access abort controller fired, the stream the render produces, and
the entry `collectResult` assembles after draining the saved stream. -/
structure GenInput where
  outerStore : Option WorkUnitStore
  outerHasCacheSignal : Bool
  resultReadyAt : Option ℚ
  dynamicAborted : Bool
  renderedStream : StreamExpr
  collectedEntry : CacheEntry
  deriving DecidableEq, Repr

/-- Result of `generateCacheEntryImpl`: either a cached result carrying the
caller's branch of the teed stream and the pending cache entry, or the
became-dynamic signal (a hanging promise tied to the render signal). -/
inductive GenResult where
  | cached (stream : StreamExpr) (entry : CacheEntry)
  | prerenderDynamic
  deriving DecidableEq, Repr

/-- Observable effects of one `generateCacheEntryImpl` run. -/
structure GenEffects where
  result : GenResult
  endReadsSync : ℕ
  endReadsOnDrain : ℕ
  propagatedStore : Option WorkUnitStore
  deriving DecidableEq, Repr

/-- Whether the 50-second prerender timer fires before the render result is
ready (a result that never arrives always times out). -/
def prerenderTimedOut (resultReadyAt : Option ℚ) : Bool :=
  match resultReadyAt with
  | none => true
  | some t => decide (USE_CACHE_TIMEOUT_MS < t)

/-- Embeds `generateCacheEntryImpl` (plus the `collectResult` it spawns).
Under an enclosing prerender store, execution runs against the timeout timer:
if it fires first, the returned stream is replaced by a stream created in an
error state with the timeout error (checked before the dynamic-access
signal); otherwise a dynamic-access abort returns the became-dynamic signal
after ending the pending read on the outer cache signal; otherwise the
prerender prelude is used. Outside a prerender store the render streams with
no time budget. In every cached case the stream is teed, the caller gets the
left branch, and `collectResult` drains the right branch, assembles the
entry, propagates its cache life and tags into the outer store, and ends the
pending read on the outer prerender cache signal once done. -/
def generateCacheEntryModel (gi : GenInput) : GenEffects :=
  if isPrerenderStore gi.outerStore then
    if prerenderTimedOut gi.resultReadyAt then
      { result := .cached (.teeLeft .erroredTimeout) gi.collectedEntry
        endReadsSync := 0
        endReadsOnDrain := if gi.outerHasCacheSignal then 1 else 0
        propagatedStore := propagateCacheLifeAndTags gi.outerStore gi.collectedEntry }
    else if gi.dynamicAborted then
      { result := .prerenderDynamic
        endReadsSync := if gi.outerHasCacheSignal then 1 else 0
        endReadsOnDrain := 0
        propagatedStore := gi.outerStore }
    else
      { result := .cached (.teeLeft gi.renderedStream) gi.collectedEntry
        endReadsSync := 0
        endReadsOnDrain := if gi.outerHasCacheSignal then 1 else 0
        propagatedStore := propagateCacheLifeAndTags gi.outerStore gi.collectedEntry }
  else
    { result := .cached (.teeLeft gi.renderedStream) gi.collectedEntry
      endReadsSync := 0
      endReadsOnDrain := 0
      propagatedStore := propagateCacheLifeAndTags gi.outerStore gi.collectedEntry }

/-- Inputs of one orchestrated cache invocation, from the point where the
serialized cache key is available. -/
structure CacheInput where
  workUnitStore : Option WorkUnitStore
  hasCacheSignal : Bool
  hasRenderResumeDataCache : Bool
  resumeEntry : Option CacheEntry
  hasPrerenderResumeDataCache : Bool
  allowEmptyStaticShell : Bool
  isStaticGeneration : Bool
  isDraftMode : Bool
  forceRevalidate : Bool
  workStoreRevalidation : WorkStoreRevalidation
  implicitTags : List String
  implicitTagsExpiration : ℚ
  handlerEntry : Option CacheEntry
  currentTime : ℚ
  genResultReadyAt : Option ℚ
  genDynamicAborted : Bool
  genRenderedStream : StreamExpr
  genCollectedEntry : CacheEntry
  bgResultReadyAt : Option ℚ
  bgDynamicAborted : Bool
  bgRenderedStream : StreamExpr
  bgCollectedEntry : CacheEntry
  deriving DecidableEq, Repr

/-- What the invocation hands back to the caller. -/
inductive Served where
  | resumeHit (s : StreamExpr)
  | entryHit (s : StreamExpr)
  | generated (s : StreamExpr)
  | hanging (reason : HangReason)
  deriving DecidableEq, Repr

/-- Observable outcome of one orchestrated cache invocation.
`backgroundRegenOuterStore` records, when a background regeneration was
started, the work-unit store argument it was started with. -/
structure CacheOutcome where
  served : Served
  beginReads : ℕ
  endReadsSync : ℕ
  endReadsOnDrain : ℕ
  inlineGenerations : ℕ
  backgroundRegens : ℕ
  backgroundRegenOuterStore : Option (Option WorkUnitStore)
  handlerSets : ℕ
  pendingWriteRegistrations : ℕ
  resumeCacheWrites : ℕ
  workUnitAfter : Option WorkUnitStore
  deriving DecidableEq, Repr

/-- The generator input of the inline (miss-path) generation: it runs with
the ambient work-unit store as the outer store. -/
def inlineGenInput (inp : CacheInput) : GenInput :=
  { outerStore := inp.workUnitStore
    outerHasCacheSignal := inp.hasCacheSignal
    resultReadyAt := inp.genResultReadyAt
    dynamicAborted := inp.genDynamicAborted
    renderedStream := inp.genRenderedStream
    collectedEntry := inp.genCollectedEntry }

/-- The generator input of the stale-entry background regeneration: the
source passes `undefined` as the work-unit store (the regeneration is not
running within the context of this unit). -/
def bgGenInput (inp : CacheInput) : GenInput :=
  { outerStore := none
    outerHasCacheSignal := inp.hasCacheSignal
    resultReadyAt := inp.bgResultReadyAt
    dynamicAborted := inp.bgDynamicAborted
    renderedStream := inp.bgRenderedStream
    collectedEntry := inp.bgCollectedEntry }

/-- The miss arm of the orchestrator (`entry === undefined`, expired, or
stale during static generation): run the entry generator; a became-dynamic
result short-circuits to the hanging promise with nothing persisted;
otherwise the new stream is returned and, unless draft mode is on, the
pending entry (teed into the mutable resume data cache when one exists) is
passed to `cacheHandler.set` and registered as a pending revalidate write. -/
def missPath (inp : CacheInput) (br ers : ℕ) : CacheOutcome :=
  let ge := generateCacheEntryModel (inlineGenInput inp)
  match ge.result with
  | .prerenderDynamic =>
    { served := .hanging .generatorDynamicAccess
      beginReads := br
      endReadsSync := ers + ge.endReadsSync
      endReadsOnDrain := ge.endReadsOnDrain
      inlineGenerations := 1
      backgroundRegens := 0
      backgroundRegenOuterStore := none
      handlerSets := 0
      pendingWriteRegistrations := 0
      resumeCacheWrites := 0
      workUnitAfter := ge.propagatedStore }
  | .cached stream _ =>
    { served := .generated stream
      beginReads := br
      endReadsSync := ers + ge.endReadsSync
      endReadsOnDrain := ge.endReadsOnDrain
      inlineGenerations := 1
      backgroundRegens := 0
      backgroundRegenOuterStore := none
      handlerSets := if inp.isDraftMode then 0 else 1
      pendingWriteRegistrations := if inp.isDraftMode then 0 else 1
      resumeCacheWrites :=
        if !inp.isDraftMode && inp.hasPrerenderResumeDataCache then 1 else 0
      workUnitAfter := ge.propagatedStore }

/-- The serve arm of the orchestrator (a surviving, unexpired handler entry):
propagate its cache life and tags, serve its stream (cloned into the mutable
resume data cache and wrapped in a read-tracking stream when applicable, with
the pending read otherwise ended immediately), and if the entry is stale
(past its revalidate window) start one detached background regeneration
whose pending entry is passed to `cacheHandler.set` and registered as a
pending revalidate write (the background result is always a cached one since
it runs without a work-unit store, but the source still guards on that). -/
def servePath (inp : CacheInput) (signal : Bool) (br ers : ℕ) (e : CacheEntry) :
    CacheOutcome :=
  let w₁ := propagateCacheLifeAndTags inp.workUnitStore e
  let servedStream :=
    if inp.hasPrerenderResumeDataCache then
      if signal then StreamExpr.tracked (.teeLeft e.value) else .teeLeft e.value
    else e.value
  let endSyncServe : ℕ :=
    if inp.hasPrerenderResumeDataCache then 0 else if signal then 1 else 0
  let endDrainServe : ℕ := if inp.hasPrerenderResumeDataCache && signal then 1 else 0
  let resumeWritesServe : ℕ := if inp.hasPrerenderResumeDataCache then 1 else 0
  if decide (inp.currentTime > e.timestamp + e.revalidate * 1000) then
    let ge := generateCacheEntryModel (bgGenInput inp)
    match ge.result with
    | .cached _ _ =>
      { served := .entryHit servedStream
        beginReads := br
        endReadsSync := ers + endSyncServe + ge.endReadsSync
        endReadsOnDrain := endDrainServe + ge.endReadsOnDrain
        inlineGenerations := 0
        backgroundRegens := 1
        backgroundRegenOuterStore := some none
        handlerSets := 1
        pendingWriteRegistrations := 1
        resumeCacheWrites :=
          resumeWritesServe + (if inp.hasPrerenderResumeDataCache then 1 else 0)
        workUnitAfter := w₁ }
    | .prerenderDynamic =>
      { served := .entryHit servedStream
        beginReads := br
        endReadsSync := ers + endSyncServe + ge.endReadsSync
        endReadsOnDrain := endDrainServe + ge.endReadsOnDrain
        inlineGenerations := 0
        backgroundRegens := 1
        backgroundRegenOuterStore := some none
        handlerSets := 0
        pendingWriteRegistrations := 0
        resumeCacheWrites := resumeWritesServe
        workUnitAfter := w₁ }
  else
    { served := .entryHit servedStream
      beginReads := br
      endReadsSync := ers + endSyncServe
      endReadsOnDrain := endDrainServe
      inlineGenerations := 0
      backgroundRegens := 0
      backgroundRegenOuterStore := none
      handlerSets := 0
      pendingWriteRegistrations := 0
      resumeCacheWrites := resumeWritesServe
      workUnitAfter := w₁ }

/-- The cache-handler consulting phase of the orchestrator (reached when the
resume data cache produced no stream): begin a pending read on the prerender
cache signal, skip the handler `get` under force-revalidate, apply
`shouldDiscardCacheEntry` to a retrieved entry, short-circuit a surviving
dynamic-leaning entry to the hanging promise during a prerender (checked
before the freshness decision), and otherwise decide between the miss arm
(`entry === undefined`, past the expire cutoff, or past the revalidate
window during static generation) and the serve arm. -/
def handlerPhase (inp : CacheInput) (isPrerender signal : Bool) (br₀ ers : ℕ) :
    CacheOutcome :=
  let br := br₀ + (if signal then 1 else 0)
  let entryAfterForce := if inp.forceRevalidate then none else inp.handlerEntry
  let entry : Option CacheEntry :=
    match entryAfterForce with
    | some e =>
      if shouldDiscardCacheEntry e inp.workStoreRevalidation inp.implicitTags
          inp.implicitTagsExpiration then none else some e
    | none => none
  match entry with
  | some e =>
    if isPrerender && dynamicLeaningEntry e then
      { served := .hanging .handlerDynamicLeaning
        beginReads := br
        endReadsSync := ers + (if signal then 1 else 0)
        endReadsOnDrain := 0
        inlineGenerations := 0
        backgroundRegens := 0
        backgroundRegenOuterStore := none
        handlerSets := 0
        pendingWriteRegistrations := 0
        resumeCacheWrites := 0
        workUnitAfter := inp.workUnitStore }
    else if decide (inp.currentTime > e.timestamp + e.expire * 1000) ||
        (inp.isStaticGeneration &&
          decide (inp.currentTime > e.timestamp + e.revalidate * 1000)) then
      missPath inp br ers
    else
      servePath inp signal br ers e
  | none => missPath inp br ers

/-- Embeds the orchestrated invocation from the point where the serialized
cache key is available: consult the render resume data cache first (tracking
a pending read on the prerender cache signal around the lookup), serving a
hit (with the dynamic-leaning short circuit during a prerender, checked after
propagating the resumed entry); on a resume miss under the allow-empty-shell
policy return the hanging promise; otherwise fall through to the
cache-handler phase. -/
def cacheModel (inp : CacheInput) : CacheOutcome :=
  let isPrerender := isPrerenderStore inp.workUnitStore
  let signal := isPrerender && inp.hasCacheSignal
  if inp.hasRenderResumeDataCache then
    let br := if signal then 1 else 0
    match inp.resumeEntry with
    | some existingEntry =>
      let w₁ := propagateCacheLifeAndTags inp.workUnitStore existingEntry
      if isPrerender && dynamicLeaningEntry existingEntry then
        { served := .hanging .resumeDynamicLeaning
          beginReads := br
          endReadsSync := if signal then 1 else 0
          endReadsOnDrain := 0
          inlineGenerations := 0
          backgroundRegens := 0
          backgroundRegenOuterStore := none
          handlerSets := 0
          pendingWriteRegistrations := 0
          resumeCacheWrites := 0
          workUnitAfter := w₁ }
      else
        let streamA := StreamExpr.teeLeft existingEntry.value
        { served := .resumeHit (if signal then .tracked streamA else streamA)
          beginReads := br
          endReadsSync := 0
          endReadsOnDrain := if signal then 1 else 0
          inlineGenerations := 0
          backgroundRegens := 0
          backgroundRegenOuterStore := none
          handlerSets := 0
          pendingWriteRegistrations := 0
          resumeCacheWrites := 0
          workUnitAfter := w₁ }
    | none =>
      let ers := if signal then 1 else 0
      if isPrerender && inp.allowEmptyStaticShell then
        { served := .hanging .allowEmptyShellMiss
          beginReads := br
          endReadsSync := ers
          endReadsOnDrain := 0
          inlineGenerations := 0
          backgroundRegens := 0
          backgroundRegenOuterStore := none
          handlerSets := 0
          pendingWriteRegistrations := 0
          resumeCacheWrites := 0
          workUnitAfter := inp.workUnitStore }
      else
        handlerPhase inp isPrerender signal br ers
  else
    handlerPhase inp isPrerender signal 0 0

/-- Whether the invocation falls through to the cache-handler phase (no
stream was obtained from the render resume data cache and no hanging promise
was returned on the way). -/
def reachesHandlerPhase (inp : CacheInput) : Bool :=
  !inp.hasRenderResumeDataCache ||
    (inp.resumeEntry.isNone &&
      !(isPrerenderStore inp.workUnitStore && inp.allowEmptyStaticShell))

/-- Embeds `cloneCacheEntry`: tee the entry value stream, replace the value
of the entry object that was passed in by the left branch (an in-place
mutation in the source, modelled by returning the updated entry as the first
component), and build a fresh entry carrying the right branch and the same
timestamp, revalidate, expire, stale and tags. -/
def cloneCacheEntry (entry : CacheEntry) : CacheEntry × CacheEntry :=
  let streamA := StreamExpr.teeLeft entry.value
  let streamB := StreamExpr.teeRight entry.value
  ({ entry with value := streamA },
    { value := streamB
      timestamp := entry.timestamp
      revalidate := entry.revalidate
      expire := entry.expire
      stale := entry.stale
      tags := entry.tags })

theorem teeLeft_ne (s : StreamExpr) : StreamExpr.teeLeft s ≠ s := by
  induction s with
  | base n => exact fun h => StreamExpr.noConfusion h
  | teeLeft s ih => exact fun h => ih (by injection h)
  | teeRight s _ => exact fun h => StreamExpr.noConfusion h
  | tracked s _ => exact fun h => StreamExpr.noConfusion h
  | erroredTimeout => exact fun h => StreamExpr.noConfusion h

/-- C10: Entry cloning. Both returned entries keep the original timestamp,
revalidate, expire and stale; both tag fields are the original tags list (in
the source the very same array object); the two value streams are the two
branches of teeing the original value stream; and the first returned entry is
the passed-in entry with its value replaced by the left tee branch — so the
input entry is mutated, never left unchanged. -/
theorem cloneCacheEntry_spec (entry : CacheEntry) :
    (cloneCacheEntry entry).1 = { entry with value := .teeLeft entry.value } ∧
    (cloneCacheEntry entry).1.value = .teeLeft entry.value ∧
    (cloneCacheEntry entry).2.value = .teeRight entry.value ∧
    (cloneCacheEntry entry).1.timestamp = entry.timestamp ∧
    (cloneCacheEntry entry).2.timestamp = entry.timestamp ∧
    (cloneCacheEntry entry).1.revalidate = entry.revalidate ∧
    (cloneCacheEntry entry).2.revalidate = entry.revalidate ∧
    (cloneCacheEntry entry).1.expire = entry.expire ∧
    (cloneCacheEntry entry).2.expire = entry.expire ∧
    (cloneCacheEntry entry).1.stale = entry.stale ∧
    (cloneCacheEntry entry).2.stale = entry.stale ∧
    (cloneCacheEntry entry).1.tags = entry.tags ∧
    (cloneCacheEntry entry).2.tags = entry.tags ∧
    (cloneCacheEntry entry).1 ≠ entry := by
  refine ⟨rfl, rfl, rfl, rfl, rfl, rfl, rfl, rfl, rfl, rfl, rfl, rfl, rfl, ?_⟩
  intro h
  exact teeLeft_ne entry.value (congrArg CacheEntry.value h)

/-- Witness for `cloneCacheEntry_spec` at a concrete entry. -/
theorem cloneCacheEntry_spec_witness :
    (cloneCacheEntry ⟨.base 5, 1, 2, 3, 4, ["t"]⟩).2.value = .teeRight (.base 5) :=
  (cloneCacheEntry_spec ⟨.base 5, 1, 2, 3, 4, ["t"]⟩).2.2.1

/-- C7: Speculative-mode timeout. Under an enclosing prerender store the
generation races a 50000 ms budget: the budget fires exactly when the render
result is never ready or ready only after 50000 ms, and then the result is a
cached stream already in an error state carrying the dedicated timeout error
(not a hanging became-dynamic signal and not a successfully closing stream);
when the result is ready in budget (and no dynamic abort fired) the rendered
stream is passed through unchanged. Outside a prerender store no time budget
is applied: whatever the ready time (including never), the rendered stream is
passed through. -/
theorem speculative_timeout (gi : GenInput)
    (hp : isPrerenderStore gi.outerStore = true) :
    USE_CACHE_TIMEOUT_MS = 50000 ∧
    (prerenderTimedOut gi.resultReadyAt = true ↔
      (gi.resultReadyAt = none ∨ ∃ t, gi.resultReadyAt = some t ∧ 50000 < t)) ∧
    (prerenderTimedOut gi.resultReadyAt = true →
      (generateCacheEntryModel gi).result =
        .cached (.teeLeft .erroredTimeout) gi.collectedEntry ∧
      erroredWithTimeoutError (.teeLeft .erroredTimeout) = true) ∧
    (prerenderTimedOut gi.resultReadyAt = false → gi.dynamicAborted = false →
      (generateCacheEntryModel gi).result =
        .cached (.teeLeft gi.renderedStream) gi.collectedEntry ∧
      erroredWithTimeoutError (.teeLeft gi.renderedStream) =
        erroredWithTimeoutError gi.renderedStream) ∧
    (∀ gj : GenInput, isPrerenderStore gj.outerStore = false →
      (generateCacheEntryModel gj).result =
        .cached (.teeLeft gj.renderedStream) gj.collectedEntry) := by
  refine ⟨rfl, ?_, ?_, ?_, ?_⟩
  · cases hres : gi.resultReadyAt with
    | none => simp [prerenderTimedOut]
    | some t =>
      simp only [prerenderTimedOut, hres]
      constructor
      · intro h
        exact Or.inr ⟨t, rfl, by simpa [USE_CACHE_TIMEOUT_MS] using of_decide_eq_true h⟩
      · rintro (h | ⟨t', ht', hlt⟩)
        · exact absurd h (by simp)
        · injection ht' with hEq
          exact decide_eq_true (by simpa [USE_CACHE_TIMEOUT_MS, hEq] using hlt)
  · intro htime
    unfold generateCacheEntryModel
    rw [hp, if_pos rfl, htime]
    exact ⟨rfl, rfl⟩
  · intro htime hdyn
    unfold generateCacheEntryModel
    rw [hp, if_pos rfl, htime, hdyn]
    exact ⟨rfl, rfl⟩
  · intro gj hgj
    unfold generateCacheEntryModel
    rw [hgj]
    rfl

/-- Witness for `speculative_timeout`: a never-resolving generation under a
prerender store yields the timeout-errored stream. -/
theorem speculative_timeout_witness :
    (generateCacheEntryModel
      { outerStore := some ⟨.prerender, none, 0, 0, 0⟩
        outerHasCacheSignal := true
        resultReadyAt := none
        dynamicAborted := false
        renderedStream := .base 1
        collectedEntry := ⟨.base 2, 0, 5, 10, 2, []⟩ }).result =
      .cached (.teeLeft .erroredTimeout) ⟨.base 2, 0, 5, 10, 2, []⟩ :=
  ((speculative_timeout
    { outerStore := some ⟨.prerender, none, 0, 0, 0⟩
      outerHasCacheSignal := true
      resultReadyAt := none
      dynamicAborted := false
      renderedStream := .base 1
      collectedEntry := ⟨.base 2, 0, 5, 10, 2, []⟩ } rfl).2.2.1 rfl).1

/-- Under `reachesHandlerPhase` the invocation ends in the cache-handler
phase, starting from some pending-read counters. -/
theorem cacheModel_eq_handlerPhase (inp : CacheInput)
    (h : reachesHandlerPhase inp = true) :
    ∃ br ers, cacheModel inp = handlerPhase inp (isPrerenderStore inp.workUnitStore)
      (isPrerenderStore inp.workUnitStore && inp.hasCacheSignal) br ers := by
  by_cases hr : inp.hasRenderResumeDataCache
  · have h' := h
    unfold reachesHandlerPhase at h'
    rw [hr] at h'
    simp only [Bool.not_true, Bool.false_or, Bool.and_eq_true, Bool.not_eq_true',
      Option.isNone_iff_eq_none] at h'
    obtain ⟨hnone, hcond⟩ := h'
    refine ⟨if isPrerenderStore inp.workUnitStore && inp.hasCacheSignal then 1 else 0,
      if isPrerenderStore inp.workUnitStore && inp.hasCacheSignal then 1 else 0, ?_⟩
    simp [cacheModel, hr, hnone, hcond]
  · refine ⟨0, 0, ?_⟩
    simp [cacheModel, hr]

/-- With force-revalidate off, a retrieved entry that `shouldDiscardCacheEntry`
rejects sends the handler phase to the miss arm. -/
theorem handlerPhase_discarded (inp : CacheInput) (p s : Bool) (br₀ ers : ℕ)
    (e : CacheEntry)
    (hf : inp.forceRevalidate = false)
    (he : inp.handlerEntry = some e)
    (hd : shouldDiscardCacheEntry e inp.workStoreRevalidation inp.implicitTags
      inp.implicitTagsExpiration = true) :
    handlerPhase inp p s br₀ ers = missPath inp (br₀ + (if s then 1 else 0)) ers := by
  simp [handlerPhase, hf, he, hd]

/-- With force-revalidate off, a surviving non-dynamic-leaning entry sends
the handler phase to the freshness decision between miss arm and serve arm. -/
theorem handlerPhase_surviving (inp : CacheInput) (p s : Bool) (br₀ ers : ℕ)
    (e : CacheEntry)
    (hf : inp.forceRevalidate = false)
    (he : inp.handlerEntry = some e)
    (hd : shouldDiscardCacheEntry e inp.workStoreRevalidation inp.implicitTags
      inp.implicitTagsExpiration = false)
    (hdyn : (p && dynamicLeaningEntry e) = false) :
    handlerPhase inp p s br₀ ers =
      if decide (inp.currentTime > e.timestamp + e.expire * 1000) ||
          (inp.isStaticGeneration &&
            decide (inp.currentTime > e.timestamp + e.revalidate * 1000)) then
        missPath inp (br₀ + (if s then 1 else 0)) ers
      else
        servePath inp s (br₀ + (if s then 1 else 0)) ers e := by
  simp [handlerPhase, hf, he, hd, hdyn]

/-- With force-revalidate off, a surviving dynamic-leaning entry during a
prerender hangs before the freshness decision. -/
theorem handlerPhase_dynamicLeaning (inp : CacheInput) (p s : Bool) (br₀ ers : ℕ)
    (e : CacheEntry)
    (hf : inp.forceRevalidate = false)
    (he : inp.handlerEntry = some e)
    (hd : shouldDiscardCacheEntry e inp.workStoreRevalidation inp.implicitTags
      inp.implicitTagsExpiration = false)
    (hdyn : (p && dynamicLeaningEntry e) = true) :
    (handlerPhase inp p s br₀ ers).served = .hanging .handlerDynamicLeaning ∧
    (handlerPhase inp p s br₀ ers).inlineGenerations = 0 ∧
    (handlerPhase inp p s br₀ ers).backgroundRegens = 0 := by
  simp [handlerPhase, hf, he, hd, hdyn]

/-- The miss arm always runs the generator once and never serves a cache or
resume entry stream. -/
theorem missPath_spec (inp : CacheInput) (br ers : ℕ) :
    (missPath inp br ers).inlineGenerations = 1 ∧
    (∀ s, (missPath inp br ers).served ≠ .entryHit s) ∧
    (∀ s, (missPath inp br ers).served ≠ .resumeHit s) := by
  unfold missPath
  cases h : (generateCacheEntryModel (inlineGenInput inp)).result <;> simp [h]

/-- C5: Tag invalidation precedence. `shouldDiscardCacheEntry` is true
exactly when some entry tag is contained in the previously or pending
revalidated tags, or the entry timestamp is at or before the latest
implicit-tag invalidation time, or some implicit tag is itself contained in
the previously or pending revalidated tags; and any invocation reaching the
handler phase with a retrieved entry that is discarded runs the generator
(treats the lookup as a miss) and never serves the retrieved entry, whatever
its freshness. -/
theorem tag_invalidation_precedence (e : CacheEntry) (ws : WorkStoreRevalidation)
    (implicitTags : List String) (exp : ℚ) :
    (shouldDiscardCacheEntry e ws implicitTags exp = true ↔
      (∃ t ∈ e.tags, t ∈ ws.previouslyRevalidatedTags ∨
        t ∈ ws.pendingRevalidatedTags.getD []) ∨
      e.timestamp ≤ exp ∨
      (∃ t ∈ implicitTags, t ∈ ws.previouslyRevalidatedTags ∨
        t ∈ ws.pendingRevalidatedTags.getD [])) ∧
    (∀ inp : CacheInput, reachesHandlerPhase inp = true →
      inp.forceRevalidate = false → inp.handlerEntry = some e →
      inp.workStoreRevalidation = ws → inp.implicitTags = implicitTags →
      inp.implicitTagsExpiration = exp →
      shouldDiscardCacheEntry e ws implicitTags exp = true →
      (cacheModel inp).inlineGenerations = 1 ∧
      (∀ s, (cacheModel inp).served ≠ .entryHit s)) := by
  constructor
  · unfold shouldDiscardCacheEntry isRecentlyRevalidatedTag
    simp [List.any_eq_true]
    exact or_assoc
  · intro inp hreach hforce hentry hws himp hexp hdisc
    obtain ⟨br, ers, hm⟩ := cacheModel_eq_handlerPhase inp hreach
    rw [hm, handlerPhase_discarded inp _ _ br ers e hforce hentry
      (by rw [hws, himp, hexp]; exact hdisc)]
    exact ⟨(missPath_spec inp _ ers).1, (missPath_spec inp _ ers).2.1⟩

/-- Witness for `tag_invalidation_precedence`: an unexpired entry tagged
with a previously revalidated tag is discarded and regenerated. -/
theorem tag_invalidation_precedence_witness :
    shouldDiscardCacheEntry ⟨.base 0, 100, 5, 10, 2, ["a"]⟩ ⟨["a"], none⟩ [] 0 = true :=
  (tag_invalidation_precedence ⟨.base 0, 100, 5, 10, 2, ["a"]⟩
    ⟨["a"], none⟩ [] 0).1.mpr (Or.inl ⟨"a", by simp, Or.inl (by simp)⟩)

/-- A concrete invocation used by the concrete evaluations below: an
enclosing prerender store with a cache signal, no resume data caches, draft
mode off, static generation on, no revalidated tags, current time 200000 ms,
and generations that complete promptly. -/
def sampleInput : CacheInput :=
  { workUnitStore := some ⟨.prerender, none, 40, 15, 900⟩
    hasCacheSignal := true
    hasRenderResumeDataCache := false
    resumeEntry := none
    hasPrerenderResumeDataCache := false
    allowEmptyStaticShell := false
    isStaticGeneration := true
    isDraftMode := false
    forceRevalidate := false
    workStoreRevalidation := ⟨[], none⟩
    implicitTags := []
    implicitTagsExpiration := -1
    handlerEntry := none
    currentTime := 200000
    genResultReadyAt := some 10
    genDynamicAborted := false
    genRenderedStream := .base 1
    genCollectedEntry := ⟨.base 2, 0, 5, 10, 2, []⟩
    bgResultReadyAt := some 10
    bgDynamicAborted := false
    bgRenderedStream := .base 3
    bgCollectedEntry := ⟨.base 4, 0, 5, 10, 2, []⟩ }

/-- The background regeneration always reports a cached result: it runs
with no work-unit store, so the prerender arm of the generator (and with it
the timeout and the became-dynamic signal) is unreachable. -/
theorem bgGen_result (inp : CacheInput) :
    (generateCacheEntryModel (bgGenInput inp)).result =
      .cached (.teeLeft inp.bgRenderedStream) inp.bgCollectedEntry := rfl

/-- The serve arm on a stale entry: the caller gets the entry's stream (or a
tee branch of it, possibly read-tracked), exactly one background regeneration
is started with no work-unit store, its pending entry goes to the handler
`set` and is registered as a pending write, and no inline generation runs. -/
theorem servePath_stale_spec (inp : CacheInput) (s : Bool) (br ers : ℕ) (e : CacheEntry)
    (hstale : inp.currentTime > e.timestamp + e.revalidate * 1000) :
    (∃ st, (servePath inp s br ers e).served = .entryHit st ∧
      (st = e.value ∨ st = .teeLeft e.value ∨ st = .tracked (.teeLeft e.value))) ∧
    (servePath inp s br ers e).backgroundRegens = 1 ∧
    (servePath inp s br ers e).backgroundRegenOuterStore = some none ∧
    (servePath inp s br ers e).handlerSets = 1 ∧
    (servePath inp s br ers e).pendingWriteRegistrations = 1 ∧
    (servePath inp s br ers e).inlineGenerations = 0 := by
  have hbg := bgGen_result inp
  refine ⟨?_, ?_⟩
  · by_cases hpr : inp.hasPrerenderResumeDataCache
    · cases s
      · exact ⟨.teeLeft e.value,
          by simp [servePath, decide_eq_true hstale, hbg, hpr], by simp⟩
      · exact ⟨.tracked (.teeLeft e.value),
          by simp [servePath, decide_eq_true hstale, hbg, hpr], by simp⟩
    · exact ⟨e.value, by simp [servePath, decide_eq_true hstale, hbg, hpr], by simp⟩
  · simp [servePath, decide_eq_true hstale, hbg]

/-- C3 counterexample: an expired entry (timestamp 0, expire 100 s, read at
200000 ms) that survives tag-based discarding, retrieved during a prerender:
because its revalidate window is 0 it is dynamic-leaning (independently of
the dynamic-expire floor), so the orchestrator returns the hanging dynamic
placeholder instead of treating the lookup as a miss — the generator never
runs, contradicting the claim that it always regenerates. -/
theorem expiry_cutoff_counterexample :
    shouldDiscardCacheEntry ⟨.base 0, 0, 0, 100, 0, []⟩
      sampleInput.workStoreRevalidation sampleInput.implicitTags
      sampleInput.implicitTagsExpiration = false ∧
    sampleInput.currentTime > (0 : ℚ) + 100 * 1000 ∧
    (cacheModel { sampleInput with
      handlerEntry := some ⟨.base 0, 0, 0, 100, 0, []⟩ }).inlineGenerations = 0 ∧
    (cacheModel { sampleInput with
      handlerEntry := some ⟨.base 0, 0, 0, 100, 0, []⟩ }).served =
        .hanging .handlerDynamicLeaning := by
  refine ⟨by decide, by norm_num [sampleInput], ?_, ?_⟩ <;>
    norm_num [cacheModel, handlerPhase, missPath, servePath, generateCacheEntryModel,
      inlineGenInput, bgGenInput, sampleInput, shouldDiscardCacheEntry,
      isRecentlyRevalidatedTag, dynamicLeaningEntry, isPrerenderStore, DYNAMIC_EXPIRE,
      reachesHandlerPhase, prerenderTimedOut, USE_CACHE_TIMEOUT_MS]

/-- C3 (amended): Expiry hard cutoff. For a retrieved entry surviving
tag-based discarding, once past the expire cutoff (or, during static
generation only, past the revalidate cutoff) the old value is never returned;
and unless the invocation is a prerender and the entry is dynamic-leaning
(revalidate 0 or expire under the dynamic-expire floor, which short-circuits
to the dynamic placeholder before the freshness decision), the lookup is
treated as a miss and the generator runs. -/
theorem expiry_hard_cutoff (inp : CacheInput) (e : CacheEntry)
    (hreach : reachesHandlerPhase inp = true)
    (hforce : inp.forceRevalidate = false)
    (hentry : inp.handlerEntry = some e)
    (hdiscard : shouldDiscardCacheEntry e inp.workStoreRevalidation inp.implicitTags
      inp.implicitTagsExpiration = false)
    (hfresh : inp.currentTime > e.timestamp + e.expire * 1000 ∨
      (inp.isStaticGeneration = true ∧
        inp.currentTime > e.timestamp + e.revalidate * 1000)) :
    (∀ st, (cacheModel inp).served ≠ .entryHit st) ∧
    (∀ st, (cacheModel inp).served ≠ .resumeHit st) ∧
    ((isPrerenderStore inp.workUnitStore && dynamicLeaningEntry e) = false →
      (cacheModel inp).inlineGenerations = 1) := by
  obtain ⟨br, ers, hm⟩ := cacheModel_eq_handlerPhase inp hreach
  by_cases hdyn : (isPrerenderStore inp.workUnitStore && dynamicLeaningEntry e) = true
  · have h := handlerPhase_dynamicLeaning inp (isPrerenderStore inp.workUnitStore)
      (isPrerenderStore inp.workUnitStore && inp.hasCacheSignal) br ers e hforce hentry
      hdiscard hdyn
    rw [hm]
    refine ⟨?_, ?_, ?_⟩
    · intro st hc
      rw [h.1] at hc
      exact Served.noConfusion hc
    · intro st hc
      rw [h.1] at hc
      exact Served.noConfusion hc
    · intro hcon
      rw [hcon] at hdyn
      exact absurd hdyn (by simp)
  · have hdyn' : (isPrerenderStore inp.workUnitStore && dynamicLeaningEntry e) = false := by
      revert hdyn
      cases isPrerenderStore inp.workUnitStore && dynamicLeaningEntry e <;> simp
    have hsplit := handlerPhase_surviving inp (isPrerenderStore inp.workUnitStore)
      (isPrerenderStore inp.workUnitStore && inp.hasCacheSignal) br ers e hforce hentry
      hdiscard hdyn'
    have hcond : (decide (inp.currentTime > e.timestamp + e.expire * 1000) ||
        (inp.isStaticGeneration &&
          decide (inp.currentTime > e.timestamp + e.revalidate * 1000))) = true := by
      rcases hfresh with h | ⟨h1, h2⟩
      · simp [decide_eq_true h]
      · simp [h1, decide_eq_true h2]
    rw [hm, hsplit]
    simp only [hcond, if_true]
    exact ⟨(missPath_spec inp _ _).2.1, (missPath_spec inp _ _).2.2,
      fun _ => (missPath_spec inp _ _).1⟩

/-- Witness for `expiry_hard_cutoff`: outside a prerender, an expired
surviving entry is regenerated. -/
theorem expiry_hard_cutoff_witness :
    (cacheModel { sampleInput with
      workUnitStore := some ⟨.request, none, 40, 15, 900⟩
      handlerEntry := some ⟨.base 0, 0, 1, 100, 0, []⟩ }).inlineGenerations = 1 :=
  (expiry_hard_cutoff
    { sampleInput with
      workUnitStore := some ⟨.request, none, 40, 15, 900⟩
      handlerEntry := some ⟨.base 0, 0, 1, 100, 0, []⟩ }
    ⟨.base 0, 0, 1, 100, 0, []⟩
    rfl rfl rfl (by decide) (Or.inl (by norm_num [sampleInput]))).2.2 (by decide)

/-- C4 counterexample: during a non-static-generation prerender read, a
surviving entry with revalidate 0 (hence stale, and dynamic-leaning) and
expire 1000 s (not yet expired at 200000 ms) is neither served nor
background-regenerated: the orchestrator hangs with the dynamic placeholder,
contradicting the claim that every such read serves the stale stream and
starts exactly one background regeneration. -/
theorem stale_while_revalidate_counterexample :
    shouldDiscardCacheEntry ⟨.base 0, 0, 0, 1000, 0, []⟩
      sampleInput.workStoreRevalidation sampleInput.implicitTags
      sampleInput.implicitTagsExpiration = false ∧
    sampleInput.currentTime > (0 : ℚ) + 0 * 1000 ∧
    ¬ sampleInput.currentTime > (0 : ℚ) + 1000 * 1000 ∧
    (cacheModel { sampleInput with
      isStaticGeneration := false
      handlerEntry := some ⟨.base 0, 0, 0, 1000, 0, []⟩ }).backgroundRegens = 0 ∧
    (cacheModel { sampleInput with
      isStaticGeneration := false
      handlerEntry := some ⟨.base 0, 0, 0, 1000, 0, []⟩ }).served =
        .hanging .handlerDynamicLeaning := by
  refine ⟨by decide, by norm_num [sampleInput], by norm_num [sampleInput], ?_, ?_⟩ <;>
    norm_num [cacheModel, handlerPhase, missPath, servePath, generateCacheEntryModel,
      inlineGenInput, bgGenInput, sampleInput, shouldDiscardCacheEntry,
      isRecentlyRevalidatedTag, dynamicLeaningEntry, isPrerenderStore, DYNAMIC_EXPIRE,
      reachesHandlerPhase, prerenderTimedOut, USE_CACHE_TIMEOUT_MS]

/-- C4 (amended): Stale-while-revalidate. For a retrieved entry surviving
discarding whose age is between its revalidate and expire windows during a
non-static-generation read, unless the invocation is a prerender and the
entry is dynamic-leaning (which short-circuits to the dynamic placeholder),
the orchestrator serves the entry's stream (the entry value or a tee branch
of it, possibly read-tracked) without discarding it, runs exactly one
background regeneration with no enclosing work-unit context, and passes its
pending result to the Cache Handler's set, registering it as a pending write
on the work store. -/
theorem stale_while_revalidate (inp : CacheInput) (e : CacheEntry)
    (hreach : reachesHandlerPhase inp = true)
    (hforce : inp.forceRevalidate = false)
    (hentry : inp.handlerEntry = some e)
    (hdiscard : shouldDiscardCacheEntry e inp.workStoreRevalidation inp.implicitTags
      inp.implicitTagsExpiration = false)
    (hdyn : (isPrerenderStore inp.workUnitStore && dynamicLeaningEntry e) = false)
    (hstatic : inp.isStaticGeneration = false)
    (hstale : inp.currentTime > e.timestamp + e.revalidate * 1000)
    (hnotexp : ¬ inp.currentTime > e.timestamp + e.expire * 1000) :
    (∃ st, (cacheModel inp).served = .entryHit st ∧
      (st = e.value ∨ st = .teeLeft e.value ∨ st = .tracked (.teeLeft e.value))) ∧
    (cacheModel inp).backgroundRegens = 1 ∧
    (cacheModel inp).backgroundRegenOuterStore = some none ∧
    (cacheModel inp).handlerSets = 1 ∧
    (cacheModel inp).pendingWriteRegistrations = 1 ∧
    (cacheModel inp).inlineGenerations = 0 := by
  obtain ⟨br, ers, hm⟩ := cacheModel_eq_handlerPhase inp hreach
  have hsplit := handlerPhase_surviving inp (isPrerenderStore inp.workUnitStore)
    (isPrerenderStore inp.workUnitStore && inp.hasCacheSignal) br ers e hforce hentry
    hdiscard hdyn
  have hcond : (decide (inp.currentTime > e.timestamp + e.expire * 1000) ||
      (inp.isStaticGeneration &&
        decide (inp.currentTime > e.timestamp + e.revalidate * 1000))) = false := by
    simp [decide_eq_false hnotexp, hstatic]
  rw [hm, hsplit]
  simp only [hcond, Bool.false_eq_true, if_false]
  exact servePath_stale_spec inp _ _ _ e hstale

/-- Witness for `stale_while_revalidate`: a stale, unexpired entry with a
five-minute-plus expire window served outside static generation. -/
theorem stale_while_revalidate_witness :
    (cacheModel { sampleInput with
      isStaticGeneration := false
      handlerEntry := some ⟨.base 7, 0, 10, 1000, 0, []⟩ }).backgroundRegens = 1 :=
  (stale_while_revalidate
    { sampleInput with
      isStaticGeneration := false
      handlerEntry := some ⟨.base 7, 0, 10, 1000, 0, []⟩ }
    ⟨.base 7, 0, 10, 1000, 0, []⟩
    rfl rfl rfl (by decide) (by decide) rfl (by norm_num [sampleInput])
    (by norm_num [sampleInput])).2.1

/-- C6: Dynamic-access short circuit. When the inline generation under a
prerender store is aborted by the dynamic-access signal (and not by the
timeout), the generator returns the became-dynamic signal instead of a cache
entry, the orchestrator returns the hanging placeholder, the Cache Handler's
set is never called, no pending write is registered, and nothing is written
to the resume data cache. -/
theorem dynamic_access_short_circuit (inp : CacheInput)
    (hpre : isPrerenderStore inp.workUnitStore = true)
    (hdyn : inp.genDynamicAborted = true)
    (hnt : prerenderTimedOut inp.genResultReadyAt = false)
    (hreach : reachesHandlerPhase inp = true)
    (hmiss : inp.handlerEntry = none) :
    (generateCacheEntryModel (inlineGenInput inp)).result = .prerenderDynamic ∧
    (cacheModel inp).served = .hanging .generatorDynamicAccess ∧
    (cacheModel inp).handlerSets = 0 ∧
    (cacheModel inp).pendingWriteRegistrations = 0 ∧
    (cacheModel inp).resumeCacheWrites = 0 := by
  have hio : (inlineGenInput inp).outerStore = inp.workUnitStore := rfl
  have hgen : (generateCacheEntryModel (inlineGenInput inp)).result = .prerenderDynamic := by
    unfold generateCacheEntryModel
    rw [hio, hpre]
    simp only [if_true]
    rw [show (inlineGenInput inp).resultReadyAt = inp.genResultReadyAt from rfl, hnt]
    rw [show (inlineGenInput inp).dynamicAborted = inp.genDynamicAborted from rfl, hdyn]
    simp
  obtain ⟨br, ers, hm⟩ := cacheModel_eq_handlerPhase inp hreach
  have hmp : handlerPhase inp (isPrerenderStore inp.workUnitStore)
      (isPrerenderStore inp.workUnitStore && inp.hasCacheSignal) br ers =
      missPath inp (br + (if isPrerenderStore inp.workUnitStore && inp.hasCacheSignal
        then 1 else 0)) ers := by
    simp [handlerPhase, hmiss]
  rw [hm, hmp]
  refine ⟨hgen, ?_, ?_, ?_, ?_⟩ <;> simp [missPath, hgen]

/-- Witness for `dynamic_access_short_circuit` at a concrete prerender
invocation whose generation hits the dynamic-access abort. -/
theorem dynamic_access_short_circuit_witness :
    (cacheModel { sampleInput with genDynamicAborted := true }).handlerSets = 0 :=
  (dynamic_access_short_circuit { sampleInput with genDynamicAborted := true }
    rfl rfl (by decide) (by decide) rfl).2.2.1

/-- The end-read calls of one generator run sum to one exactly when the
outer store is a prerender with a cache signal. -/
theorem generateCacheEntryModel_reads (gi : GenInput) :
    (generateCacheEntryModel gi).endReadsSync + (generateCacheEntryModel gi).endReadsOnDrain =
      if isPrerenderStore gi.outerStore && gi.outerHasCacheSignal then 1 else 0 := by
  unfold generateCacheEntryModel
  cases hp : isPrerenderStore gi.outerStore
  · cases hs : gi.outerHasCacheSignal <;> simp [hp, hs]
  · cases hs : gi.outerHasCacheSignal <;>
      cases ht : prerenderTimedOut gi.resultReadyAt <;>
        cases hd : gi.dynamicAborted <;>
          simp [hp, hs, ht, hd]

/-- The miss arm keeps the begin-read counter and adds the generator's
end reads to the carried end-read counter. -/
theorem missPath_reads (inp : CacheInput) (br ers : ℕ) :
    (missPath inp br ers).beginReads = br ∧
    (missPath inp br ers).endReadsSync + (missPath inp br ers).endReadsOnDrain =
      ers + ((generateCacheEntryModel (inlineGenInput inp)).endReadsSync +
        (generateCacheEntryModel (inlineGenInput inp)).endReadsOnDrain) := by
  cases h : (generateCacheEntryModel (inlineGenInput inp)).result <;>
    constructor <;> simp [missPath, h] <;> omega

/-- The serve arm keeps the begin-read counter and ends exactly one read
when a signal is present (the background regeneration, running with no
work-unit store, never touches the signal). -/
theorem servePath_reads (inp : CacheInput) (s : Bool) (br ers : ℕ) (e : CacheEntry) :
    (servePath inp s br ers e).beginReads = br ∧
    (servePath inp s br ers e).endReadsSync + (servePath inp s br ers e).endReadsOnDrain =
      ers + (if s then 1 else 0) := by
  have hbg := bgGen_result inp
  have hread := generateCacheEntryModel_reads (bgGenInput inp)
  rw [show (bgGenInput inp).outerStore = none from rfl] at hread
  simp only [isPrerenderStore, Bool.false_and, Bool.false_eq_true, if_false] at hread
  obtain ⟨hs0, hd0⟩ := Nat.add_eq_zero.mp hread
  cases hpr : inp.hasPrerenderResumeDataCache <;> cases s <;>
    constructor <;>
      simp [servePath, hbg, hpr, hs0, hd0] <;> split <;> simp [hs0, hd0]

/-- The handler phase with an active prerender cache signal begins one more
read and ends exactly one more read than it was carried, on every arm. -/
theorem handlerPhase_reads_signal (inp : CacheInput) (p : Bool) (br₀ ers : ℕ)
    (hsig : (isPrerenderStore inp.workUnitStore && inp.hasCacheSignal) = true) :
    (handlerPhase inp p true br₀ ers).beginReads = br₀ + 1 ∧
    (handlerPhase inp p true br₀ ers).endReadsSync +
      (handlerPhase inp p true br₀ ers).endReadsOnDrain = ers + 1 := by
  have hg := generateCacheEntryModel_reads (inlineGenInput inp)
  rw [show (inlineGenInput inp).outerStore = inp.workUnitStore from rfl,
    show (inlineGenInput inp).outerHasCacheSignal = inp.hasCacheSignal from rfl] at hg
  rw [hsig] at hg
  simp only [if_true] at hg
  have hmr1 := (missPath_reads inp (br₀ + 1) ers).1
  have hmr2 := (missPath_reads inp (br₀ + 1) ers).2
  unfold handlerPhase
  rcases hef : (if inp.forceRevalidate then none else inp.handlerEntry) with _ | e
  · refine ⟨hmr1, ?_⟩
    show (missPath inp (br₀ + 1) ers).endReadsSync +
      (missPath inp (br₀ + 1) ers).endReadsOnDrain = ers + 1
    omega
  · by_cases hd : shouldDiscardCacheEntry e inp.workStoreRevalidation inp.implicitTags
        inp.implicitTagsExpiration
    · simp only [hd, if_true]
      refine ⟨hmr1, ?_⟩
      show (missPath inp (br₀ + 1) ers).endReadsSync +
        (missPath inp (br₀ + 1) ers).endReadsOnDrain = ers + 1
      omega
    · simp only [hd, Bool.false_eq_true, if_false]
      by_cases hdl : (p && dynamicLeaningEntry e) = true
      · simp [hdl]
      · have hdl' : (p && dynamicLeaningEntry e) = false := by
          revert hdl
          cases p && dynamicLeaningEntry e <;> simp
        simp only [hdl', Bool.false_eq_true, if_false]
        split
        · refine ⟨hmr1, ?_⟩
          show (missPath inp (br₀ + 1) ers).endReadsSync +
            (missPath inp (br₀ + 1) ers).endReadsOnDrain = ers + 1
          omega
        · refine ⟨(servePath_reads inp true (br₀ + 1) ers e).1, ?_⟩
          show (servePath inp true (br₀ + 1) ers e).endReadsSync +
            (servePath inp true (br₀ + 1) ers e).endReadsOnDrain = ers + 1
          have hse := (servePath_reads inp true (br₀ + 1) ers e).2
          simpa using hse

/-- C9: Read accounting. Under an enclosing prerender store carrying a cache
signal, every invocation balances its beginRead calls with exactly as many
endRead calls (counting the ones deferred to stream drain or collection),
whatever the path: resume-cache hit, handler hit, miss with generation,
dynamic-access abort, or an error captured in the generated stream. -/
theorem read_accounting_balance (inp : CacheInput)
    (hpre : isPrerenderStore inp.workUnitStore = true)
    (hsig : inp.hasCacheSignal = true) :
    (cacheModel inp).beginReads =
      (cacheModel inp).endReadsSync + (cacheModel inp).endReadsOnDrain := by
  have hsignal : (isPrerenderStore inp.workUnitStore && inp.hasCacheSignal) = true := by
    rw [hpre, hsig]
    rfl
  by_cases hr : inp.hasRenderResumeDataCache
  · cases hres : inp.resumeEntry with
    | some e =>
      by_cases hdl : dynamicLeaningEntry e
      · simp [cacheModel, hr, hres, hsignal, hpre, hdl]
      · simp [cacheModel, hr, hres, hsignal, hpre, hdl]
    | none =>
      by_cases ha : inp.allowEmptyStaticShell
      · simp [cacheModel, hr, hres, hsignal, hpre, ha]
      · have h := handlerPhase_reads_signal inp true 1 1 hsignal
        simp only [cacheModel, hr, hres, hsignal, hpre, ha, hsig, if_true,
          Bool.true_and, Bool.false_eq_true, if_false]
        omega
  · have h := handlerPhase_reads_signal inp true 0 0 hsignal
    simp only [cacheModel, hr, hsignal, hpre, hsig, Bool.true_and,
      Bool.false_eq_true, if_false]
    omega

/-- Witness for `read_accounting_balance` at a concrete prerender invocation
with a cache signal. -/
theorem read_accounting_balance_witness :
    (cacheModel sampleInput).beginReads =
      (cacheModel sampleInput).endReadsSync + (cacheModel sampleInput).endReadsOnDrain :=
  read_accounting_balance sampleInput rfl rfl

end UseCache
